import Mathlib

/-!
Verification of the batch image-captioning pipeline.

Shallow embedding of the repository's core components:

* `ImageWithCaption`, `ImageCaptionProcessor.get_image_from_url` and
  `add_image_captions` (from `image_with_caption.py` and
  `image_caption_processor.py`);
* `BatchImageCaptions.get_image_captions_from_urls`, its producer thread
  `__add_images_to_queue` and the consumer loop (from
  `batch_image_captions.py`);
* `ImageCaptionsJobManager` — `get_processing_id`, `validate_processing`,
  `process_batch`, `notify_batch_is_done`, the private `__process_file`
  loop and `process_files` (from `image_captions_job.py`), with the CSV
  `save_batch` header behaviour (from `image_captions_csv_job.py`).

External effects (HTTP fetch, the BLIP model, telemetry probes, the file
system) are modelled as explicit oracles/environment records; the code
under `src/` is translated statement by statement.
-/

namespace ImgCaption

/-! ## Level A: the batch acquisition pipeline

`ImageWithCaption` mirrors the dataclass in `image_with_caption.py`:
`url`, `is_valid`, `idx : int = -1`, `image = None`, `caption = None`.
The payload type `Img` is abstract. -/

structure ImageWithCaption (Img : Type) where
  url : String
  is_valid : Bool
  idx : Int
  image : Option Img
  caption : Option String
deriving DecidableEq

/-- `ImageCaptionProcessor.get_image_from_url` (image_caption_processor.py,
lines 38-61).  The whole body — the HTTP request, `Image.open`, `convert`
and the in-try resize — sits inside one `try`; the external world is the
oracle `world : String → Option Img` (`some` = the request, decode and
resize succeed with this final payload, `none` = any exception).  On
success it returns a record with `is_valid=True` and the image; on any
exception it returns `is_valid=False`, `image=None` — both branches carry
the original `url` and `idx`, and neither sets a caption. -/
def get_image_from_url {Img : Type} (world : String → Option Img)
    (image_url : String) (idx : Int) : ImageWithCaption Img :=
  match world image_url with
  | some img => ⟨image_url, true, idx, some img, none⟩
  | none => ⟨image_url, false, idx, none, none⟩

/-- Fixed-size chunking with explicit fuel; `chunk` below instantiates the
fuel with the list length, which suffices whenever `bs ≥ 1`. -/
def chunkAux {α : Type} (bs : Nat) : Nat → List α → List (List α)
  | _, [] => []
  | 0, _ :: _ => []
  | fuel + 1, x :: xs => List.take bs (x :: xs) :: chunkAux bs fuel (List.drop bs (x :: xs))

/-- `image_urls_ls[i:i + self.batch_size]` slicing of the producer loop
`for i in range(0, len(image_urls_ls), self.batch_size)`
(batch_image_captions.py, lines 42-46): the list split into consecutive
batches of `bs` elements (last one possibly shorter). -/
def chunk {α : Type} (bs : Nat) (xs : List α) : List (List α) :=
  chunkAux bs xs.length xs

/-- One producer iteration: `[(url, i) for i, url in enumerate(batch)]`
followed by `pool.starmap(self.processor.get_image_from_url, img_urls2idx)`.
`starmap` returns results in argument order for every pool size, so the
worker count does not appear here: the fetched batch is the slot-ordered
list of per-identifier fetches. -/
def fetchBatch {Img : Type} (world : String → Option Img)
    (batch : List String) : List (ImageWithCaption Img) :=
  batch.enum.map (fun p => get_image_from_url world p.2 (Int.ofNat p.1))

/-- `BatchImageCaptions.__add_images_to_queue` (batch_image_captions.py,
lines 35-46): the sequence of batches the producer thread pushes onto the
queue, in order.  With `batch_size = 0` the `range(0, n, 0)` call raises
`ValueError` inside the thread before anything is enqueued, so no batch is
ever pushed. -/
def producerBatches {Img : Type} (world : String → Option Img)
    (bs : Nat) (urls : List String) : List (List (ImageWithCaption Img)) :=
  if bs = 0 then [] else (chunk bs urls).map (fetchBatch world)

/-- The in-place `image.add_caption(caption)` effect of the annotator on
one record: the caption generated by the model (oracle `cap`) from the
record's payload. -/
def annotCaption {Img : Type} (cap : Img → String)
    (r : ImageWithCaption Img) : ImageWithCaption Img :=
  { r with caption := r.image.map cap }

/-- `ImageCaptionProcessor.add_image_captions` (image_caption_processor.py,
lines 106-121).  `assert all(image.is_valid for image in images)` is the
guard: a batch containing an invalid record raises `AssertionError`,
modelled as `none`.  Otherwise `model.generate` + `batch_decode` produce
one caption per image (oracle `cap` applied to each payload) and the loop
`for image, caption in zip(images, captions)` stores them in place. -/
def add_image_captions {Img : Type} (cap : Img → String)
    (images : List (ImageWithCaption Img)) : Option (List (ImageWithCaption Img)) :=
  if images.all (fun r => r.is_valid) then
    some (images.map (annotCaption cap))
  else
    none

/-- One consumer-loop iteration of `get_image_captions_from_urls`
(batch_image_captions.py, lines 66-70): pop a batch, build
`valid_images = [image for image in images if image.is_valid]`, call
`add_image_captions(valid_images)` (which mutates exactly those records in
place), and keep the whole batch.  Because `valid_images` aliases the valid
elements of `images`, the batch afterwards equals `images` with
`annotCaption` applied to its valid records and the invalid ones untouched.
A `none` result propagates the `AssertionError`. -/
def consumerStep {Img : Type} (cap : Img → String)
    (images : List (ImageWithCaption Img)) : Option (List (ImageWithCaption Img)) :=
  match add_image_captions cap (images.filter (fun r => r.is_valid)) with
  | none => none
  | some _ =>
      some (images.map (fun r => if r.is_valid then annotCaption cap r else r))

/-- The consumer loop body run over every batch the producer enqueues, in
queue (FIFO) order, accumulating `all_images += images` and recording the
argument of each `add_image_captions` call. -/
def consumeAll {Img : Type} (cap : Img → String) :
    List (List (ImageWithCaption Img)) →
    Option (List (ImageWithCaption Img) × List (List (ImageWithCaption Img)))
  | [] => some ([], [])
  | b :: rest =>
      match consumerStep cap b, consumeAll cap rest with
      | some b', some (out, calls) =>
          some (b' ++ out, b.filter (fun r => r.is_valid) :: calls)
      | _, _ => none

/-- Possible outcomes of one `get_image_captions_from_urls` call. -/
inductive PipeOutcome (Img : Type) where
  | returns (out : List (ImageWithCaption Img))
      (annotCalls : List (List (ImageWithCaption Img)))
  | hangs
  | raises
deriving DecidableEq

/-- `BatchImageCaptions.get_image_captions_from_urls`
(batch_image_captions.py, lines 51-73).  The consumer loop executes
`images = self.queue.get()` — a blocking pop — *before* testing
`not thread.is_alive() and self.queue.empty()`, so if the producer thread
never enqueues a batch the first pop blocks forever and the call never
returns (`hangs`).  Otherwise the consumer pops every enqueued batch in
order and returns once the producer is finished and the queue is drained.
`n_cpus` is the worker-pool size; `pool.starmap` collects results in
argument order for every pool size, so it is carried only so statements can
quantify over it. -/
def get_image_captions_from_urls {Img : Type} (world : String → Option Img)
    (cap : Img → String) (n_cpus bs : Nat) (urls : List String) :
    PipeOutcome Img :=
  let batches := producerBatches world bs urls
  if batches.isEmpty then
    .hangs
  else
    match consumeAll cap batches with
    | some (out, calls) => .returns out calls
    | none => .raises

/-! ### Pipeline lemmas -/

theorem chunkAux_flatten {α : Type} (bs : Nat) (hbs : 1 ≤ bs) :
    ∀ (fuel : Nat) (xs : List α), xs.length ≤ fuel →
      (chunkAux bs fuel xs).flatten = xs := by
  intro fuel
  induction fuel with
  | zero =>
      intro xs hxs
      match xs with
      | [] => rfl
      | x :: xs => simp at hxs
  | succ fuel ih =>
      intro xs hxs
      match xs with
      | [] => rfl
      | x :: xs =>
          have hxs' : xs.length + 1 ≤ fuel + 1 := by
            simpa using hxs
          have hlen : (List.drop bs (x :: xs)).length ≤ fuel := by
            rw [List.length_drop, List.length_cons]
            omega
          show (List.take bs (x :: xs) :: chunkAux bs fuel (List.drop bs (x :: xs))).flatten = _
          rw [List.flatten_cons, ih (List.drop bs (x :: xs)) hlen]
          exact List.take_append_drop bs (x :: xs)

theorem chunk_flatten {α : Type} (bs : Nat) (hbs : 1 ≤ bs) (xs : List α) :
    (chunk bs xs).flatten = xs :=
  chunkAux_flatten bs hbs xs.length xs (Nat.le_refl _)

/-- The per-position observable content of the pipeline output: identifier,
validity and caption as a function of the identifier alone. -/
def pipeSpec {Img : Type} (world : String → Option Img) (cap : Img → String)
    (u : String) : String × Bool × Option String :=
  match world u with
  | some img => (u, true, some (cap img))
  | none => (u, false, none)

theorem consumerStep_eq {Img : Type} (cap : Img → String)
    (b : List (ImageWithCaption Img)) :
    consumerStep cap b =
      some (b.map (fun r => if r.is_valid then annotCaption cap r else r)) := by
  unfold consumerStep add_image_captions
  have hall : (b.filter (fun r => r.is_valid)).all (fun r => r.is_valid) = true := by
    simp
  rw [hall]
  simp

theorem consumeAll_eq {Img : Type} (cap : Img → String)
    (batches : List (List (ImageWithCaption Img))) :
    consumeAll cap batches =
      some ((batches.map (fun b =>
              b.map (fun r => if r.is_valid then annotCaption cap r else r))).flatten,
            batches.map (fun b => b.filter (fun r => r.is_valid))) := by
  induction batches with
  | nil => rfl
  | cons b rest ih =>
      unfold consumeAll
      rw [consumerStep_eq, ih]
      simp

theorem run_returns_iff {Img : Type} (world : String → Option Img)
    (cap : Img → String) (n_cpus bs : Nat) (urls : List String)
    (out : List (ImageWithCaption Img)) (calls : List (List (ImageWithCaption Img)))
    (h : get_image_captions_from_urls world cap n_cpus bs urls = .returns out calls) :
    producerBatches world bs urls ≠ [] ∧
    out = ((producerBatches world bs urls).map (fun b =>
            b.map (fun r => if r.is_valid then annotCaption cap r else r))).flatten ∧
    calls = (producerBatches world bs urls).map (fun b => b.filter (fun r => r.is_valid)) := by
  unfold get_image_captions_from_urls at h
  by_cases hne : (producerBatches world bs urls).isEmpty
  · simp [hne] at h
  · rw [if_neg hne, consumeAll_eq] at h
    refine ⟨by simpa [List.isEmpty_iff] using hne, ?_, ?_⟩
    · cases h; rfl
    · cases h; rfl

theorem fetchBatch_proj {Img : Type} (world : String → Option Img)
    (cap : Img → String) (b : List String) :
    ((fetchBatch world b).map (fun r => if r.is_valid then annotCaption cap r else r)).map
        (fun r => (r.url, r.is_valid, r.caption)) =
      b.map (pipeSpec world cap) := by
  unfold fetchBatch
  rw [List.map_map, List.map_map]
  conv_rhs => rw [← List.enumFrom_map_snd 0 b, List.map_map]
  unfold List.enum
  apply List.map_congr_left
  intro p _
  simp only [Function.comp_apply]
  unfold get_image_from_url pipeSpec annotCaption
  cases world p.2 <;> simp

/-- Master pointwise description of a returning pipeline call: position by
position the output carries the input identifier, the fetch validity, and
the model caption exactly on valid records. -/
theorem run_proj {Img : Type} (world : String → Option Img)
    (cap : Img → String) (n_cpus bs : Nat) (urls : List String)
    (out : List (ImageWithCaption Img)) (calls : List (List (ImageWithCaption Img)))
    (h : get_image_captions_from_urls world cap n_cpus bs urls = .returns out calls) :
    out.map (fun r => (r.url, r.is_valid, r.caption)) = urls.map (pipeSpec world cap) := by
  obtain ⟨hne, hout, -⟩ := run_returns_iff world cap n_cpus bs urls out calls h
  have hbs : ¬ bs = 0 := by
    intro h0
    exact hne (by simp [producerBatches, h0])
  subst hout
  unfold producerBatches
  rw [if_neg hbs, List.map_flatten, List.map_map, List.map_map]
  have hcongr : (chunk bs urls).map
      ((List.map (fun r : ImageWithCaption Img => (r.url, r.is_valid, r.caption)) ∘
        List.map (fun r => if r.is_valid then annotCaption cap r else r)) ∘ fetchBatch world) =
      (chunk bs urls).map (List.map (pipeSpec world cap)) := by
    apply List.map_congr_left
    intro b _
    simpa using fetchBatch_proj world cap b
  rw [hcongr, ← List.map_flatten,
    chunk_flatten bs (Nat.one_le_iff_ne_zero.mpr hbs) urls]

theorem run_map_url {Img : Type} (world : String → Option Img)
    (cap : Img → String) (n_cpus bs : Nat) (urls : List String)
    (out : List (ImageWithCaption Img)) (calls : List (List (ImageWithCaption Img)))
    (h : get_image_captions_from_urls world cap n_cpus bs urls = .returns out calls) :
    out.map (fun r => r.url) = urls := by
  have hp := run_proj world cap n_cpus bs urls out calls h
  have h1 : (out.map (fun r => (r.url, r.is_valid, r.caption))).map (fun t => t.1) =
      (urls.map (pipeSpec world cap)).map (fun t => t.1) := by rw [hp]
  rw [List.map_map, List.map_map] at h1
  have h2 : (fun t : String × Bool × Option String => t.1) ∘ pipeSpec world cap = id := by
    funext u
    simp only [Function.comp_apply, pipeSpec]
    cases world u <;> rfl
  rw [h2, List.map_id] at h1
  exact h1

/-! ### Pipeline claims -/

/-- C1: for every input identifier sequence given to
`get_image_captions_from_urls`, the returned sequence of fetched-resource
records has the same length as the input and, at every position, the
record's identifier (`url`) equals the input identifier at that position,
for every worker-pool size (`n_cpus`) and batch size. -/
theorem claim_c1_order_preservation {Img : Type} (world : String → Option Img)
    (cap : Img → String) (n_cpus bs : Nat) (urls : List String)
    (out : List (ImageWithCaption Img)) (calls : List (List (ImageWithCaption Img)))
    (h : get_image_captions_from_urls world cap n_cpus bs urls = .returns out calls) :
    out.length = urls.length ∧
    ∀ (i : Nat) (h1 : i < out.length) (h2 : i < urls.length),
      (out[i]).url = urls[i] := by
  have hmap := run_map_url world cap n_cpus bs urls out calls h
  have hlen : out.length = urls.length := by
    rw [← hmap, List.length_map]
  refine ⟨hlen, ?_⟩
  intro i h1 h2
  have hb1 : i < (out.map (fun r => r.url)).length := by
    rw [List.length_map]
    exact h1
  have hget : (out.map (fun r => r.url))[i] = urls[i] := by
    simp only [hmap]
  rw [List.getElem_map] at hget
  exact hget

def worldFail : String → Option Nat := fun _ => none

def capConst : Nat → String := fun _ => "a photo"

theorem claim_c1_order_preservation_witness :
    ([({ url := "u0", is_valid := false, idx := 0, image := none, caption := none} :
        ImageWithCaption Nat),
      { url := "u1", is_valid := false, idx := 1, image := none, caption := none}]).length =
      (["u0", "u1"]).length ∧
    ∀ (i : Nat)
      (h1 : i < ([({ url := "u0", is_valid := false, idx := 0, image := none, caption := none} :
          ImageWithCaption Nat),
        { url := "u1", is_valid := false, idx := 1, image := none, caption := none}]).length)
      (h2 : i < (["u0", "u1"]).length),
      (([({ url := "u0", is_valid := false, idx := 0, image := none, caption := none} :
          ImageWithCaption Nat),
        { url := "u1", is_valid := false, idx := 1, image := none, caption := none}])[i]).url =
        (["u0", "u1"])[i] :=
  claim_c1_order_preservation worldFail capConst 4 2 ["u0", "u1"] _ _ rfl

/-- C5: an identifier whose fetch fails never raises out of
`get_image_from_url`: the returned record carries the original identifier
and slot index with `is_valid = false` and no caption, and in a returning
pipeline call every failed position is still present in the output with
`is_valid = false` and `caption = none` (never dropped). -/
theorem claim_c5_invalid_passthrough {Img : Type} (world : String → Option Img)
    (cap : Img → String) (n_cpus bs : Nat) (urls : List String)
    (out : List (ImageWithCaption Img)) (calls : List (List (ImageWithCaption Img)))
    (h : get_image_captions_from_urls world cap n_cpus bs urls = .returns out calls) :
    (∀ (url : String) (idx : Int),
      (get_image_from_url world url idx).url = url ∧
      (get_image_from_url world url idx).idx = idx ∧
      (world url = none →
        (get_image_from_url world url idx).is_valid = false ∧
        (get_image_from_url world url idx).caption = none)) ∧
    (∀ (i : Nat) (h1 : i < out.length) (h2 : i < urls.length),
      world urls[i] = none →
        (out[i]).is_valid = false ∧ (out[i]).caption = none) := by
  constructor
  · intro url idx
    unfold get_image_from_url
    cases hw : world url <;> simp
  · intro i h1 h2 hfail
    have hp := run_proj world cap n_cpus bs urls out calls h
    have hb1 : i < (out.map (fun r => (r.url, r.is_valid, r.caption))).length := by
      rw [List.length_map]
      exact h1
    have hb2 : i < (urls.map (pipeSpec world cap)).length := by
      rw [List.length_map]
      exact h2
    have hi : (out.map (fun r => (r.url, r.is_valid, r.caption)))[i] =
        (urls.map (pipeSpec world cap))[i] := by
      simp only [hp]
    rw [List.getElem_map, List.getElem_map] at hi
    rw [pipeSpec, hfail] at hi
    have h1' := congrArg (fun t : String × Bool × Option String => t.2.1) hi
    have h2' := congrArg (fun t : String × Bool × Option String => t.2.2) hi
    exact ⟨h1', h2'⟩

theorem claim_c5_invalid_passthrough_witness :
    (∀ (url : String) (idx : Int),
      (get_image_from_url worldFail url idx).url = url ∧
      (get_image_from_url worldFail url idx).idx = idx ∧
      (worldFail url = none →
        (get_image_from_url worldFail url idx).is_valid = false ∧
        (get_image_from_url worldFail url idx).caption = none)) ∧
    (∀ (i : Nat)
      (h1 : i < ([({ url := "u0", is_valid := false, idx := 0, image := none, caption := none} :
          ImageWithCaption Nat)]).length)
      (h2 : i < (["u0"]).length),
      worldFail (["u0"])[i] = none →
        (([({ url := "u0", is_valid := false, idx := 0, image := none, caption := none} :
            ImageWithCaption Nat)])[i]).is_valid = false ∧
        (([({ url := "u0", is_valid := false, idx := 0, image := none, caption := none} :
            ImageWithCaption Nat)])[i]).caption = none) :=
  claim_c5_invalid_passthrough worldFail capConst 4 2 ["u0"] _ _ rfl

theorem mem_out_valid_caption {Img : Type} (world : String → Option Img)
    (cap : Img → String) (n_cpus bs : Nat) (urls : List String)
    (out : List (ImageWithCaption Img)) (calls : List (List (ImageWithCaption Img)))
    (h : get_image_captions_from_urls world cap n_cpus bs urls = .returns out calls) :
    ∀ r ∈ out, r.is_valid = true → r.caption.isSome = true := by
  obtain ⟨-, hout, -⟩ := run_returns_iff world cap n_cpus bs urls out calls h
  subst hout
  intro r hr hvalid
  rw [List.mem_flatten] at hr
  obtain ⟨l, hl, hrl⟩ := hr
  rw [List.mem_map] at hl
  obtain ⟨b, hb, rfl⟩ := hl
  rw [List.mem_map] at hrl
  obtain ⟨r0, hr0, rfl⟩ := hrl
  have hbmem : b ∈ producerBatches world bs urls := hb
  unfold producerBatches at hbmem
  by_cases hbs : bs = 0
  · simp [hbs] at hbmem
  · rw [if_neg hbs, List.mem_map] at hbmem
    obtain ⟨c, hc, rfl⟩ := hbmem
    unfold fetchBatch at hr0
    rw [List.mem_map] at hr0
    obtain ⟨p, hp, rfl⟩ := hr0
    unfold get_image_from_url at hvalid ⊢
    cases hw : world p.2
    · rw [hw] at hvalid
      simp at hvalid
    · simp [annotCaption]

/-- C6: every batch the consumer pops leads to exactly one
`add_image_captions` invocation whose argument is exactly the batch's valid
records; on that call path the all-valid precondition assertion always
holds (the call never fails), and afterwards every valid record of the
output carries a non-`none` caption. -/
theorem claim_c6_all_valid_annotation {Img : Type} (world : String → Option Img)
    (cap : Img → String) (n_cpus bs : Nat) (urls : List String)
    (out : List (ImageWithCaption Img)) (calls : List (List (ImageWithCaption Img)))
    (h : get_image_captions_from_urls world cap n_cpus bs urls = .returns out calls) :
    calls = (producerBatches world bs urls).map (fun b => b.filter (fun r => r.is_valid)) ∧
    (∀ c ∈ calls, (∀ r ∈ c, r.is_valid = true) ∧ add_image_captions cap c ≠ none) ∧
    (∀ r ∈ out, r.is_valid = true → r.caption.isSome = true) := by
  obtain ⟨-, -, hcalls⟩ := run_returns_iff world cap n_cpus bs urls out calls h
  refine ⟨hcalls, ?_, mem_out_valid_caption world cap n_cpus bs urls out calls h⟩
  intro c hc
  rw [hcalls, List.mem_map] at hc
  obtain ⟨b, hb, rfl⟩ := hc
  have hall : ∀ r ∈ b.filter (fun r : ImageWithCaption Img => r.is_valid),
      r.is_valid = true := by
    intro r hr
    exact (List.mem_filter.mp hr).2
  refine ⟨hall, ?_⟩
  unfold add_image_captions
  rw [if_pos (List.all_eq_true.mpr hall)]
  exact Option.some_ne_none _

def worldEven : String → Option Nat := fun u => if u.length % 2 = 0 then some u.length else none

def fetchedAB : ImageWithCaption Nat := ⟨"ab", true, 0, some 2, none⟩

def captionedAB : ImageWithCaption Nat := ⟨"ab", true, 0, some 2, some "a photo"⟩

theorem claim_c6_all_valid_annotation_witness :
    ([[fetchedAB]] =
      (producerBatches worldEven 1 ["ab"]).map (fun b => b.filter (fun r => r.is_valid))) ∧
    (∀ c ∈ [[fetchedAB]],
      (∀ r ∈ c, r.is_valid = true) ∧ add_image_captions capConst c ≠ none) ∧
    (∀ r ∈ [captionedAB], r.is_valid = true → r.caption.isSome = true) :=
  claim_c6_all_valid_annotation worldEven capConst 4 1 ["ab"] _ _ rfl

/-- C10: called with an empty identifier list, the producer thread enqueues
no batches while the consumer performs a blocking `queue.get()` before it
checks the termination condition, so `get_image_captions_from_urls` never
terminates — it does not return the empty sequence. -/
theorem claim_c10_empty_input_hangs {Img : Type} (world : String → Option Img)
    (cap : Img → String) (n_cpus bs : Nat) :
    producerBatches world bs ([] : List String) = [] ∧
    get_image_captions_from_urls world cap n_cpus bs ([] : List String) = .hangs := by
  have hprod : producerBatches world bs ([] : List String) = [] := by
    unfold producerBatches chunk chunkAux
    cases bs <;> simp
  refine ⟨hprod, ?_⟩
  unfold get_image_captions_from_urls
  rw [hprod]
  rfl

/-! ## Level B: the job manager

The orchestrator of `image_captions_job.py`, with the CSV `save_batch` of
`image_captions_csv_job.py`.  The pipeline-plus-annotator call inside
`process_batch`, the telemetry probes and the file system are oracles in a
`JobEnv`; the status store, its persisted copy, the output files and a log
of performed batch work form the explicit `JMState`. -/

/-- Decimal digits of `n`, least significant first, with explicit fuel
(`fuel = n` suffices). -/
def natDigitsRev : Nat → Nat → List Nat
  | 0, _ => []
  | fuel + 1, n => if n = 0 then [] else n % 10 :: natDigitsRev fuel (n / 10)

def digit2Char (d : Nat) : Char :=
  if d = 0 then '0' else if d = 1 then '1' else if d = 2 then '2'
  else if d = 3 then '3' else if d = 4 then '4' else if d = 5 then '5'
  else if d = 6 then '6' else if d = 7 then '7' else if d = 8 then '8'
  else '9'

/-- Python `str` of a non-negative integer: its decimal representation,
most significant digit first, `"0"` for zero. -/
def natRepr (n : Nat) : String :=
  if n = 0 then "0" else ((natDigitsRev n n).reverse.map digit2Char).asString

/-- Python `str` of a bool, as an f-string renders it. -/
def boolRepr : Bool → String
  | true => "True"
  | false => "False"

/-- Configuration of `ImageCaptionProcessor` (hf_model, device,
max_new_tokens, skip_special_tokens). -/
structure ProcessorConfig where
  hf_model : String
  device : String
  max_new_tokens : Nat
  skip_special_tokens : Bool
deriving DecidableEq

/-- `ImageCaptionProcessor.__str__` (image_caption_processor.py, line 36):
`f'{hf_model},{device},{max_new_tokens},{skip_special_tokens}'`. -/
def processorStr (p : ProcessorConfig) : String :=
  p.hf_model ++ "," ++ p.device ++ "," ++ natRepr p.max_new_tokens ++ "," ++
    boolRepr p.skip_special_tokens

/-- Configuration of `BatchImageCaptions` (n_cpus, batch_size, device and
the processor settings). -/
structure BicConfig where
  n_cpus : Nat
  batch_size : Nat
  device : String
  processor : ProcessorConfig
deriving DecidableEq

/-- `BatchImageCaptions.__str__` (batch_image_captions.py, lines 48-49):
`f'{n_cpus},{batch_size},{device},{str(processor)}'`. -/
def bicStr (c : BicConfig) : String :=
  natRepr c.n_cpus ++ "," ++ natRepr c.batch_size ++ "," ++ c.device ++ "," ++
    processorStr c.processor

/-- `ImageCaptionsJobManager.get_processing_id` (image_captions_job.py,
lines 48-59): `f'{str(self.bic)}|{file_path}|{out_path}'`. -/
def get_processing_id (c : BicConfig) (file_path out_path : String) : String :=
  bicStr c ++ "|" ++ file_path ++ "|" ++ out_path

/-- The per-file progress record created by `get_new_file_info`
(image_captions_job.py, lines 131-144) and mutated by
`notify_batch_is_done`.  GPU telemetry is nullable (`None` without a GPU);
elapsed wall-clock time is abstracted to a numeric tick count. -/
structure FStatus where
  file_path : String
  out_path : String
  n_batches : Nat
  is_done : Bool
  cpu_usage : List Nat
  gpu_usage : List (Option (List Nat))
  iter_time : List Nat
  ram_usage : List Nat
deriving DecidableEq

/-- `ImageCaptionsJobManager.get_new_file_info`. -/
def get_new_file_info (file_path out_path : String) : FStatus :=
  ⟨file_path, out_path, 0, false, [], [], [], []⟩

/-- A row of the tabular output: the one-time header (`batch.columns`,
written by `save_batch` only for batch 1) or a data row. -/
inductive Row where
  | header
  | rowData (s : String)
deriving DecidableEq

/-- Environment of one job run: which paths exist on disk before the run,
the telemetry probes, the batch iterator of `_iter_batches`, the combined
fetch-and-annotate pipeline call of `process_batch` (an exception from the
pipeline or the annotator is `.error`), and whether each batch write
succeeds. -/
structure JobEnv where
  existsFS : List String
  gpuSample : Option (List Nat)
  cpuSample : Nat
  ramSample : Nat
  elapsed : Nat
  runBatch : Nat → List String → Except Unit (List String)
  writeOk : Nat → Bool
  fileBatches : String → List (List String)

/-- Association-list lookup, mirroring Python `dict.get`. -/
def lookupA {β : Type} (k : String) : List (String × β) → Option β
  | [] => none
  | (k', v) :: rest => if k = k' then some v else lookupA k rest

/-- Association-list store, mirroring Python `dict.__setitem__`. -/
def insertA {β : Type} (k : String) (v : β) : List (String × β) → List (String × β)
  | [] => [(k, v)]
  | (k', v') :: rest => if k = k' then (k, v) :: rest else (k', v') :: insertA k v rest

/-- Observable state of a job run: the in-memory status store
(`self.status.data`), its last persisted snapshot (`save_data`), the
contents of the output files on disk, and a log of every batch actually
driven through fetch/annotate (one `(processing id, batch id)` entry per
`process_batch` invocation). -/
structure JMState where
  store : List (String × FStatus)
  persisted : List (String × FStatus)
  outFiles : List (String × List Row)
  events : List (String × Nat)
deriving DecidableEq

/-- Errors surfacing from the job manager. -/
inductive JErr where
  | fileExistsError
  | assertionError
  | annotationError
  | writeError
  | nameError
deriving DecidableEq

def getFile (files : List (String × List Row)) (p : String) : List Row :=
  (lookupA p files).getD []

/-- Appending rows to an output file (the csv writer on the handle opened
in `'a'` mode). -/
def writeTo (p : String) (rows : List Row) (files : List (String × List Row)) :
    List (String × List Row) :=
  insertA p (getFile files p ++ rows) files

/-- `open(out_path, 'a')` creates the file (empty) when absent. -/
def touchFile (p : String) (files : List (String × List Row)) :
    List (String × List Row) :=
  match lookupA p files with
  | some _ => files
  | none => files ++ [(p, [])]

/-- `CSVImageCaptionsJobManager.save_batch` (image_captions_csv_job.py,
lines 37-40): `if bid == 1: writer.writerow(batch.columns)` then
`writer.writerows(batch.values)`. -/
def batchRows (bid : Nat) (rows : List String) : List Row :=
  (if bid = 1 then [Row.header] else []) ++ rows.map Row.rowData

/-- `ImageCaptionsJobManager.notify_batch_is_done` (image_captions_job.py,
lines 145-158), without its final `save_data` (modelled at the call
site): increment `n_batches` and append one sample to each telemetry
list. -/
def notify_batch_is_done (env : JobEnv) (fs : FStatus) : FStatus :=
  { fs with
      n_batches := fs.n_batches + 1,
      gpu_usage := fs.gpu_usage ++ [env.gpuSample],
      cpu_usage := fs.cpu_usage ++ [env.cpuSample],
      ram_usage := fs.ram_usage ++ [env.ramSample],
      iter_time := fs.iter_time ++ [env.elapsed] }

/-- `ImageCaptionsJobManager.process_batch` (image_captions_job.py, lines
113-129): run the batch through the pipeline and annotator (`env.runBatch`;
the invocation is logged as an event first), `save_batch` it to the output
at `op`, then `notify_batch_is_done` — which mutates the record and
persists the whole store (`save_data`; the record sits in the store under
`pid`, aliased by the assignment at the start of `__process_file`).  An
exception at any step propagates, carrying the state as mutated so far:
the record and the persisted store are untouched because all their
mutations come after the write. -/
def process_batch (env : JobEnv) (op pid : String) (bid : Nat)
    (batch : List String) (fs : FStatus) (st : JMState) :
    Except (JErr × FStatus × JMState) (FStatus × JMState) :=
  let st1 : JMState := { st with events := st.events ++ [(pid, bid)] }
  match env.runBatch bid batch with
  | .error _ => .error (.annotationError, fs, st1)
  | .ok rows =>
      if env.writeOk bid then
        let st2 : JMState := { st1 with outFiles := writeTo op (batchRows bid rows) st1.outFiles }
        let fs' := notify_batch_is_done env fs
        let store' := insertA pid fs' st2.store
        .ok (fs', { st2 with store := store', persisted := store' })
      else
        .error (.writeError, fs, st1)

/-- The per-file batch loop of `__process_file` (image_captions_job.py,
lines 66-68): `for bid, batch in enumerate(self._iter_batches(file_path),
start=1): if bid > f_status["n_batches"]: self.process_batch(...)`.  Note
the loop re-reads the record's current `n_batches`, which each successful
`process_batch` increments. -/
def processLoop (env : JobEnv) (op pid : String) :
    List (Nat × List String) → FStatus → JMState →
    Except (JErr × FStatus × JMState) (FStatus × JMState)
  | [], fs, st => .ok (fs, st)
  | (bid, batch) :: rest, fs, st =>
      if fs.n_batches < bid then
        match process_batch env op pid bid batch fs st with
        | .error e => .error e
        | .ok (fs', st') => processLoop env op pid rest fs' st'
      else
        processLoop env op pid rest fs st

/-- Whether a path exists: it was on disk before the run
(`os.path.exists`) or an output file created earlier in this run. -/
def fileExists (env : JobEnv) (st : JMState) (p : String) : Bool :=
  env.existsFS.contains p || (lookupA p st.outFiles).isSome

/-- `ImageCaptionsJobManager.validate_processing` (image_captions_job.py,
lines 95-111): first, if the record's output path exists on disk while
`n_batches == 0`, raise `FileExistsError`; otherwise skip (return `False`)
when `is_done`, else allow processing. -/
def validate_processing (env : JobEnv) (st : JMState) (fs : FStatus) :
    Except JErr Bool :=
  if fileExists env st fs.out_path = true ∧ fs.n_batches = 0 then
    .error .fileExistsError
  else if fs.is_done then
    .ok false
  else
    .ok true

/-- `self.status.data.get(pid, self.get_new_file_info(file_path, out_path))`
at the start of `__process_file`. -/
def effectiveStatus (cfg : BicConfig) (st : JMState) (file_path out_path : String) :
    FStatus :=
  (lookupA (get_processing_id cfg file_path out_path) st.store).getD
    (get_new_file_info file_path out_path)

/-- `ImageCaptionsJobManager.__process_file` (image_captions_job.py, lines
61-80).  Look up or create the progress record, gate through
`validate_processing`; on `False` return with the state untouched; on
`True` open the output in append mode (creating it), put the record into
the store, run the batch loop, then set `is_done`, log and `save_data`.
The completion log line reads the loop variable `bid`, which is unbound
when `_iter_batches` yielded nothing: that raises `NameError` after
`is_done` is set in memory but before the final `save_data`. -/
def processFile (env : JobEnv) (cfg : BicConfig) (st : JMState)
    (file_path out_path : String) : Except (JErr × JMState) JMState :=
  let pid := get_processing_id cfg file_path out_path
  let fs := effectiveStatus cfg st file_path out_path
  match validate_processing env st fs with
  | .error e => .error (e, st)
  | .ok false => .ok st
  | .ok true =>
      let st1 : JMState := { st with
        outFiles := touchFile out_path st.outFiles,
        store := insertA pid fs st.store }
      match processLoop env out_path pid
          (List.enumFrom 1 (env.fileBatches file_path)) fs st1 with
      | .error (e, _, stE) => .error (e, stE)
      | .ok (fs', st2) =>
          let fs2 := { fs' with is_done := true }
          if (env.fileBatches file_path).isEmpty then
            .error (.nameError, { st2 with store := insertA pid fs2 st2.store })
          else
            let store2 := insertA pid fs2 st2.store
            .ok { st2 with store := store2, persisted := store2 }

def processFilesGo (env : JobEnv) (cfg : BicConfig) :
    List (String × String) → JMState → Except (JErr × JMState) JMState
  | [], st => .ok st
  | (f, o) :: rest, st =>
      match processFile env cfg st f o with
      | .error e => .error e
      | .ok st' => processFilesGo env cfg rest st'

/-- `ImageCaptionsJobManager.process_files` (image_captions_job.py, lines
212-223): `assert len(files) == len(out_paths)` — an `AssertionError`
surfaces before any file is touched — then process each `(file, out)` pair
in order (the trailing `close_pool` has no observable effect here). -/
def process_files (env : JobEnv) (cfg : BicConfig) (st : JMState)
    (files out_paths : List String) : Except (JErr × JMState) JMState :=
  if files.length = out_paths.length then
    processFilesGo env cfg (files.zip out_paths) st
  else
    .error (.assertionError, st)

def isHeaderRow : Row → Bool
  | .header => true
  | .rowData _ => false

def countHeaders (rows : List Row) : Nat := rows.countP isHeaderRow

def isOkE {ε α : Type} : Except ε α → Bool
  | .ok _ => true
  | .error _ => false

/-! ### Decimal representation lemmas (for the job-identity key) -/

/-- Value of a little-endian decimal digit list. -/
def valDigitsRev : List Nat → Nat
  | [] => 0
  | d :: ds => d + 10 * valDigitsRev ds

theorem val_natDigitsRev : ∀ (fuel n : Nat), n ≤ fuel →
    valDigitsRev (natDigitsRev fuel n) = n := by
  intro fuel
  induction fuel with
  | zero =>
      intro n hn
      have : n = 0 := Nat.le_zero.mp hn
      subst this
      rfl
  | succ fuel ih =>
      intro n hn
      unfold natDigitsRev
      by_cases h0 : n = 0
      · subst h0
        simp [valDigitsRev]
      · rw [if_neg h0]
        have hdiv : n / 10 ≤ fuel := by
          have : n / 10 < n := Nat.div_lt_self (Nat.pos_of_ne_zero h0) (by omega)
          omega
        show n % 10 + 10 * valDigitsRev (natDigitsRev fuel (n / 10)) = n
        rw [ih (n / 10) hdiv]
        omega

theorem natDigitsRev_lt10 : ∀ (fuel n d : Nat), d ∈ natDigitsRev fuel n → d < 10 := by
  intro fuel
  induction fuel with
  | zero =>
      intro n d hd
      simp [natDigitsRev] at hd
  | succ fuel ih =>
      intro n d hd
      unfold natDigitsRev at hd
      by_cases h0 : n = 0
      · rw [if_pos h0] at hd
        simp at hd
      · rw [if_neg h0] at hd
        rcases List.mem_cons.mp hd with h | h
        · subst h
          exact Nat.mod_lt n (by omega)
        · exact ih (n / 10) d h

theorem digit2Char_inj : ∀ a, a < 10 → ∀ b, b < 10 →
    digit2Char a = digit2Char b → a = b := by
  decide

theorem digit2Char_ne_comma (d : Nat) : digit2Char d ≠ ',' := by
  unfold digit2Char
  repeat' split
  all_goals decide

theorem map_digit2Char_inj : ∀ (l1 l2 : List Nat),
    (∀ d ∈ l1, d < 10) → (∀ d ∈ l2, d < 10) →
    l1.map digit2Char = l2.map digit2Char → l1 = l2 := by
  intro l1
  induction l1 with
  | nil =>
      intro l2 _ _ h
      cases l2 with
      | nil => rfl
      | cons b bs => simp at h
  | cons a as ih =>
      intro l2 h1 h2 h
      cases l2 with
      | nil => simp at h
      | cons b bs =>
          simp only [List.map_cons, List.cons.injEq] at h
          have ha : a = b := digit2Char_inj a (h1 a (by simp)) b (h2 b (by simp)) h.1
          have hrest : as = bs :=
            ih bs (fun d hd => h1 d (by simp [hd])) (fun d hd => h2 d (by simp [hd])) h.2
          rw [ha, hrest]

theorem natRepr_data (n : Nat) (hn : n ≠ 0) :
    (natRepr n).data = (natDigitsRev n n).reverse.map digit2Char := by
  unfold natRepr
  rw [if_neg hn]
  rfl

theorem natRepr_inj (m n : Nat) (h : natRepr m = natRepr n) : m = n := by
  have hval : ∀ k : Nat, k ≠ 0 →
      (natRepr k).data = (natDigitsRev k k).reverse.map digit2Char := natRepr_data
  by_cases hm : m = 0 <;> by_cases hn : n = 0
  · rw [hm, hn]
  · exfalso
    have hd : (natRepr m).data = (natRepr n).data := by rw [h]
    rw [hm] at hd
    rw [hval n hn] at hd
    have hd' : (natDigitsRev n n).reverse.map digit2Char = ['0'] := by
      rw [← hd]
      rfl
    match hrev : (natDigitsRev n n).reverse with
    | [] => rw [hrev] at hd'; simp at hd'
    | d :: ds =>
        rw [hrev] at hd'
        simp only [List.map_cons, List.cons.injEq] at hd'
        have hds : ds = [] := by
          have := hd'.2
          cases ds with
          | nil => rfl
          | cons x xs => simp at this
        have hdigits : natDigitsRev n n = [d] := by
          have := congrArg List.reverse hrev
          rw [List.reverse_reverse] at this
          rw [this, hds]
          rfl
        have hd10 : d < 10 := natDigitsRev_lt10 n n d (by rw [hdigits]; simp)
        have hd0 : d = 0 :=
          digit2Char_inj d hd10 0 (by omega) (by rw [hd'.1]; rfl)
        have hvn := val_natDigitsRev n n (Nat.le_refl n)
        rw [hdigits, hd0] at hvn
        simp [valDigitsRev] at hvn
        exact hn hvn.symm
  · exfalso
    have hd : (natRepr m).data = (natRepr n).data := by rw [h]
    rw [hn] at hd
    rw [hval m hm] at hd
    have hd' : (natDigitsRev m m).reverse.map digit2Char = ['0'] := hd
    match hrev : (natDigitsRev m m).reverse with
    | [] => rw [hrev] at hd'; simp at hd'
    | d :: ds =>
        rw [hrev] at hd'
        simp only [List.map_cons, List.cons.injEq] at hd'
        have hds : ds = [] := by
          have := hd'.2
          cases ds with
          | nil => rfl
          | cons x xs => simp at this
        have hdigits : natDigitsRev m m = [d] := by
          have := congrArg List.reverse hrev
          rw [List.reverse_reverse] at this
          rw [this, hds]
          rfl
        have hd10 : d < 10 := natDigitsRev_lt10 m m d (by rw [hdigits]; simp)
        have hd0 : d = 0 :=
          digit2Char_inj d hd10 0 (by omega) (by rw [hd'.1]; rfl)
        have hvm := val_natDigitsRev m m (Nat.le_refl m)
        rw [hdigits, hd0] at hvm
        simp [valDigitsRev] at hvm
        exact hm hvm.symm
  · have hd : (natRepr m).data = (natRepr n).data := by rw [h]
    rw [hval m hm, hval n hn] at hd
    have hrevs : (natDigitsRev m m).reverse = (natDigitsRev n n).reverse :=
      map_digit2Char_inj _ _
        (fun d hdm => natDigitsRev_lt10 m m d (List.mem_reverse.mp hdm))
        (fun d hdn => natDigitsRev_lt10 n n d (List.mem_reverse.mp hdn)) hd
    have hdig : natDigitsRev m m = natDigitsRev n n := List.reverse_inj.mp hrevs
    have hvm := val_natDigitsRev m m (Nat.le_refl m)
    have hvn := val_natDigitsRev n n (Nat.le_refl n)
    rw [hdig] at hvm
    rw [hvn] at hvm
    exact hvm.symm

theorem natRepr_no_comma (n : Nat) : ',' ∉ (natRepr n).data := by
  by_cases hn : n = 0
  · rw [hn]
    intro hmem
    simp [natRepr] at hmem
  · rw [natRepr_data n hn]
    intro hmem
    rw [List.mem_map] at hmem
    obtain ⟨d, -, hd⟩ := hmem
    exact digit2Char_ne_comma d hd

theorem append_comma_inj : ∀ (l1 l2 r1 r2 : List Char),
    ',' ∉ l1 → ',' ∉ l2 → l1 ++ ',' :: r1 = l2 ++ ',' :: r2 →
    l1 = l2 ∧ r1 = r2 := by
  intro l1
  induction l1 with
  | nil =>
      intro l2 r1 r2 _ h2 h
      cases l2 with
      | nil =>
          simp only [List.nil_append, List.cons.injEq] at h
          exact ⟨rfl, h.2⟩
      | cons c cs =>
          simp only [List.nil_append, List.cons_append, List.cons.injEq] at h
          exact absurd (by simp [← h.1]) h2
  | cons a as ih =>
      intro l2 r1 r2 h1 h2 h
      cases l2 with
      | nil =>
          simp only [List.cons_append, List.nil_append, List.cons.injEq] at h
          exact absurd (by simp [h.1]) h1
      | cons c cs =>
          simp only [List.cons_append, List.cons.injEq] at h
          have hrec := ih cs r1 r2 (fun hm => h1 (by simp [hm]))
            (fun hm => h2 (by simp [hm])) h.2
          exact ⟨by rw [h.1, hrec.1], hrec.2⟩

/-- C7: the job-identity key `get_processing_id` is a deterministic
function of the pipeline configuration (n_cpus, batch_size, device,
processor settings) and the input and output paths, and two configurations
that differ only in `batch_size` or only in worker count (`n_cpus`) yield
different keys, so runs under different settings never resume each other's
progress. -/
theorem claim_c7_identity :
    (∀ (c1 c2 : BicConfig) (fp1 fp2 op1 op2 : String),
      c1 = c2 → fp1 = fp2 → op1 = op2 →
      get_processing_id c1 fp1 op1 = get_processing_id c2 fp2 op2) ∧
    (∀ (c1 c2 : BicConfig) (fp op : String),
      c1.device = c2.device → c1.processor = c2.processor →
      (c1.n_cpus ≠ c2.n_cpus ∨ c1.batch_size ≠ c2.batch_size) →
      get_processing_id c1 fp op ≠ get_processing_id c2 fp op) := by
  constructor
  · intro c1 c2 fp1 fp2 op1 op2 hc hfp hop
    rw [hc, hfp, hop]
  · intro c1 c2 fp op hdev hproc hne heq
    have hdata : (get_processing_id c1 fp op).data = (get_processing_id c2 fp op).data := by
      rw [heq]
    have hcomma : ("," : String).data = [','] := rfl
    have hbar : ("|" : String).data = ['|'] := rfl
    simp only [get_processing_id, bicStr, String.data_append, hcomma, hbar,
      List.append_assoc, List.singleton_append] at hdata
    obtain ⟨h1, hrest⟩ := append_comma_inj _ _ _ _
      (natRepr_no_comma c1.n_cpus) (natRepr_no_comma c2.n_cpus) hdata
    obtain ⟨h2, -⟩ := append_comma_inj _ _ _ _
      (natRepr_no_comma c1.batch_size) (natRepr_no_comma c2.batch_size) hrest
    have hcpus : c1.n_cpus = c2.n_cpus := natRepr_inj _ _ (String.ext h1)
    have hbs : c1.batch_size = c2.batch_size := natRepr_inj _ _ (String.ext h2)
    rcases hne with hne | hne
    · exact hne hcpus
    · exact hne hbs

def procCfgA : ProcessorConfig :=
  ⟨"Salesforce/blip-image-captioning-large", "cpu", 20, true⟩

def cfgA : BicConfig := ⟨4, 64, "cpu", procCfgA⟩

def cfgB : BicConfig := ⟨4, 32, "cpu", procCfgA⟩

theorem claim_c7_identity_witness :
    get_processing_id cfgA "in.csv" "out.csv" = get_processing_id cfgA "in.csv" "out.csv" ∧
    get_processing_id cfgA "in.csv" "out.csv" ≠ get_processing_id cfgB "in.csv" "out.csv" :=
  ⟨claim_c7_identity.1 cfgA cfgA "in.csv" "in.csv" "out.csv" "out.csv" rfl rfl rfl,
   claim_c7_identity.2 cfgA cfgB "in.csv" "out.csv" rfl rfl (Or.inr (by decide))⟩

/-! ### Job-manager lemmas -/

theorem lookupA_insertA_self {β : Type} (k : String) (v : β) :
    ∀ l : List (String × β), lookupA k (insertA k v l) = some v := by
  intro l
  induction l with
  | nil => simp [insertA, lookupA]
  | cons kv rest ih =>
      obtain ⟨k', v'⟩ := kv
      unfold insertA
      by_cases h : k = k'
      · rw [if_pos h]
        simp [lookupA]
      · rw [if_neg h]
        unfold lookupA
        rw [if_neg h]
        exact ih

theorem getFile_writeTo_self (p : String) (rows : List Row)
    (files : List (String × List Row)) :
    getFile (writeTo p rows files) p = getFile files p ++ rows := by
  unfold writeTo getFile
  rw [lookupA_insertA_self]
  rfl

theorem countHeaders_append (a b : List Row) :
    countHeaders (a ++ b) = countHeaders a + countHeaders b := by
  unfold countHeaders
  exact List.countP_append _ _ _

theorem countHeaders_batchRows (bid : Nat) (rows : List String) :
    countHeaders (batchRows bid rows) = if bid = 1 then 1 else 0 := by
  unfold batchRows
  rw [countHeaders_append]
  have hdata : countHeaders (rows.map Row.rowData) = 0 := by
    unfold countHeaders
    rw [List.countP_map]
    have : (isHeaderRow ∘ Row.rowData) = fun _ => false := by
      funext s
      rfl
    rw [this]
    simp [List.countP_false]
  rw [hdata]
  by_cases h : bid = 1
  · rw [if_pos h, if_pos h]
    rfl
  · rw [if_neg h, if_neg h]
    rfl

/-- C2: a successfully completed `process_batch` increments the record's
`n_batches` by exactly 1, appends exactly one sample to each telemetry list
(`cpu_usage`, `gpu_usage`, `ram_usage`, `iter_time`), and persists the
whole status store containing the updated record — all after the batch has
been fully written to the output; if the pipeline/annotator call or the
batch write raises, the record, the persisted store, the in-memory store
and the output file are unchanged for that batch. -/
theorem claim_c2_batch_checkpoint (env : JobEnv) (op pid : String) (bid : Nat)
    (batch : List String) (fs : FStatus) (st : JMState) :
    match process_batch env op pid bid batch fs st with
    | .ok (fs', st') =>
        fs'.n_batches = fs.n_batches + 1 ∧
        fs'.cpu_usage = fs.cpu_usage ++ [env.cpuSample] ∧
        fs'.gpu_usage = fs.gpu_usage ++ [env.gpuSample] ∧
        fs'.ram_usage = fs.ram_usage ++ [env.ramSample] ∧
        fs'.iter_time = fs.iter_time ++ [env.elapsed] ∧
        st'.persisted = insertA pid fs' st.store ∧
        st'.store = insertA pid fs' st.store ∧
        ∃ rows, env.runBatch bid batch = .ok rows ∧
          getFile st'.outFiles op = getFile st.outFiles op ++ batchRows bid rows
    | .error (_, fs0, st0) =>
        fs0 = fs ∧ st0.persisted = st.persisted ∧ st0.store = st.store ∧
        st0.outFiles = st.outFiles := by
  unfold process_batch
  cases henv : env.runBatch bid batch with
  | error e => exact ⟨rfl, rfl, rfl, rfl⟩
  | ok rows =>
      cases hwr : env.writeOk bid with
      | false => exact ⟨rfl, rfl, rfl, rfl⟩
      | true =>
          exact ⟨rfl, rfl, rfl, rfl, rfl, rfl, rfl, rows, rfl,
            getFile_writeTo_self op (batchRows bid rows) st.outFiles⟩

theorem process_batch_ok (env : JobEnv) (op pid : String) (bid : Nat)
    (batch : List String) (fs : FStatus) (st : JMState) (rows : List String)
    (hrun : env.runBatch bid batch = .ok rows) (hwb : env.writeOk bid = true) :
    process_batch env op pid bid batch fs st =
      .ok (notify_batch_is_done env fs,
        { store := insertA pid (notify_batch_is_done env fs) st.store,
          persisted := insertA pid (notify_batch_is_done env fs) st.store,
          outFiles := writeTo op (batchRows bid rows) st.outFiles,
          events := st.events ++ [(pid, bid)] }) := by
  unfold process_batch
  rw [hrun, hwb]
  rfl

theorem processLoop_run (env : JobEnv) (op pid : String) (k : Nat)
    (hw : ∀ bid, env.writeOk bid = true)
    (hr : ∀ bid b, isOkE (env.runBatch bid b) = true) :
    ∀ (batches : List (List String)) (j : Nat) (fs : FStatus) (st : JMState),
      1 ≤ j → fs.n_batches = max k (j - 1) →
      ∃ fs' st',
        processLoop env op pid (List.enumFrom j batches) fs st = .ok (fs', st') ∧
        st'.events = st.events ++
          (((List.range' j batches.length).filter (fun b => decide (k < b))).map
            (fun b => (pid, b))) ∧
        countHeaders (getFile st'.outFiles op) =
          countHeaders (getFile st.outFiles op) +
            (if k = 0 ∧ j = 1 ∧ 1 ≤ batches.length then 1 else 0) := by
  intro batches
  induction batches with
  | nil =>
      intro j fs st hj hfs
      refine ⟨fs, st, rfl, by simp, ?_⟩
      have hno : ¬(k = 0 ∧ j = 1 ∧ 1 ≤ ([] : List (List String)).length) := by
        simp
      rw [if_neg hno]
      omega
  | cons b rest ih =>
      intro j fs st hj hfs
      rw [List.enumFrom_cons]
      have hrange : List.range' j (b :: rest).length =
          j :: List.range' (j + 1) rest.length := by
        rw [List.length_cons, List.range'_succ]
      by_cases hcase : j ≤ k
      · -- batch j is skipped: j ≤ k = current n_batches
        have hnlt : ¬ fs.n_batches < j := by omega
        obtain ⟨fs', st', hloop, hev, hcnt⟩ := ih (j + 1) fs st (by omega) (by omega)
        refine ⟨fs', st', ?_, ?_, ?_⟩
        · unfold processLoop
          rw [if_neg hnlt]
          exact hloop
        · rw [hev, hrange]
          simp only [List.filter_cons, decide_eq_true_eq]
          rw [if_neg (by omega : ¬ k < j)]
        · rw [hcnt]
          have h1 : ¬(k = 0 ∧ j = 1 ∧ 1 ≤ (b :: rest).length) := by
            rintro ⟨hk0, hj1, -⟩
            omega
          have h2 : ¬(k = 0 ∧ j + 1 = 1 ∧ 1 ≤ rest.length) := by
            rintro ⟨-, hj1, -⟩
            omega
          rw [if_neg h1, if_neg h2]
      · -- batch j is processed: k < j, current n_batches = j - 1
        have hlt : fs.n_batches < j := by omega
        obtain ⟨rows, hrows⟩ : ∃ rows, env.runBatch j b = .ok rows := by
          have hok := hr j b
          cases hrb : env.runBatch j b with
          | error e =>
              rw [hrb] at hok
              simp [isOkE] at hok
          | ok rows => exact ⟨rows, rfl⟩
        have hfs1n : (notify_batch_is_done env fs).n_batches = max k ((j + 1) - 1) := by
          unfold notify_batch_is_done
          simp only
          omega
        obtain ⟨fs', st', hloop, hev, hcnt⟩ := ih (j + 1) (notify_batch_is_done env fs)
          { store := insertA pid (notify_batch_is_done env fs) st.store,
            persisted := insertA pid (notify_batch_is_done env fs) st.store,
            outFiles := writeTo op (batchRows j rows) st.outFiles,
            events := st.events ++ [(pid, j)] } (by omega) hfs1n
        refine ⟨fs', st', ?_, ?_, ?_⟩
        · unfold processLoop
          rw [if_pos hlt, process_batch_ok env op pid j b fs st rows hrows (hw j)]
          exact hloop
        · rw [hev, hrange]
          simp only [List.filter_cons, decide_eq_true_eq]
          rw [if_pos (by omega : k < j)]
          simp only [List.map_cons]
          rw [List.append_assoc, List.singleton_append]
        · rw [hcnt]
          have hfile : getFile (writeTo op (batchRows j rows) st.outFiles) op =
              getFile st.outFiles op ++ batchRows j rows :=
            getFile_writeTo_self op (batchRows j rows) st.outFiles
          simp only at hfile ⊢
          rw [hfile, countHeaders_append, countHeaders_batchRows]
          have h2 : ¬(k = 0 ∧ j + 1 = 1 ∧ 1 ≤ rest.length) := by
            rintro ⟨-, hj1, -⟩
            omega
          rw [if_neg h2]
          have hcond : (k = 0 ∧ j = 1 ∧ 1 ≤ (b :: rest).length) ↔ j = 1 := by
            constructor
            · rintro ⟨-, hj1, -⟩
              exact hj1
            · intro hj1
              exact ⟨by omega, hj1, by simp⟩
          rw [if_congr hcond rfl rfl]
          omega

/-- C3: processing a file whose progress record has `batches_completed = k`
iterates batches in order starting at batch number 1, performs no
fetch/annotate/write work for any batch numbered ≤ k, processes every
batch numbered > k (the event log gains exactly the batch numbers > k, in
order), and the header row is written exactly once, on batch number 1 — so
it is written only when `k = 0` and at least one batch exists, and a
resumed run starting past batch 1 writes no second header. -/
theorem claim_c3_resume_skip (env : JobEnv) (op pid : String)
    (batches : List (List String)) (fs : FStatus) (st : JMState)
    (hw : ∀ bid, env.writeOk bid = true)
    (hr : ∀ bid b, isOkE (env.runBatch bid b) = true) :
    ∃ fs' st',
      processLoop env op pid (List.enumFrom 1 batches) fs st = .ok (fs', st') ∧
      st'.events = st.events ++
        (((List.range' 1 batches.length).filter
            (fun b => decide (fs.n_batches < b))).map (fun b => (pid, b))) ∧
      countHeaders (getFile st'.outFiles op) =
        countHeaders (getFile st.outFiles op) +
          (if fs.n_batches = 0 ∧ 1 ≤ batches.length then 1 else 0) := by
  obtain ⟨fs', st', h1, h2, h3⟩ :=
    processLoop_run env op pid fs.n_batches hw hr batches 1 fs st (by omega) (by omega)
  refine ⟨fs', st', h1, h2, ?_⟩
  rw [h3]
  have hcond : (fs.n_batches = 0 ∧ 1 = 1 ∧ 1 ≤ batches.length) ↔
      (fs.n_batches = 0 ∧ 1 ≤ batches.length) := by
    constructor
    · rintro ⟨a, -, c⟩
      exact ⟨a, c⟩
    · rintro ⟨a, c⟩
      exact ⟨a, rfl, c⟩
  rw [if_congr hcond rfl rfl]

def envW : JobEnv :=
  { existsFS := [],
    gpuSample := none,
    cpuSample := 5,
    ramSample := 7,
    elapsed := 2,
    runBatch := fun _ b => .ok b,
    writeOk := fun _ => true,
    fileBatches := fun _ => [["r1"], ["r2"]] }

def fsW : FStatus := get_new_file_info "in.csv" "out.csv"

def stW : JMState := ⟨[], [], [], []⟩

theorem claim_c3_resume_skip_witness :
    ∃ fs' st',
      processLoop envW "out.csv" "pid1" (List.enumFrom 1 [["r1"], ["r2"]]) fsW stW =
        .ok (fs', st') ∧
      st'.events = stW.events ++
        (((List.range' 1 ([["r1"], ["r2"]] : List (List String)).length).filter
            (fun b => decide (fsW.n_batches < b))).map (fun b => (("pid1" : String), b))) ∧
      countHeaders (getFile st'.outFiles "out.csv") =
        countHeaders (getFile stW.outFiles "out.csv") +
          (if fsW.n_batches = 0 ∧ 1 ≤ ([["r1"], ["r2"]] : List (List String)).length
            then 1 else 0) :=
  claim_c3_resume_skip envW "out.csv" "pid1" [["r1"], ["r2"]] fsW stW
    (fun _ => rfl) (fun _ _ => rfl)

/-- C4: when the effective progress record's output path already exists and
its `batches_completed` is 0, `__process_file` raises `FileExistsError`
before any batch is fetched, annotated or written — the returned state is
exactly the input state: the status store entry is neither modified nor
persisted, no output file is touched and no work event happens. -/
theorem claim_c4_conflict (env : JobEnv) (cfg : BicConfig) (st : JMState)
    (fp op : String)
    (hex : fileExists env st (effectiveStatus cfg st fp op).out_path = true)
    (h0 : (effectiveStatus cfg st fp op).n_batches = 0) :
    processFile env cfg st fp op = .error (.fileExistsError, st) := by
  have hval : validate_processing env st (effectiveStatus cfg st fp op) =
      .error .fileExistsError := by
    unfold validate_processing
    rw [if_pos ⟨hex, h0⟩]
  simp only [processFile]
  rw [hval]

def envExists : JobEnv :=
  { envW with existsFS := ["out.csv"] }

theorem claim_c4_conflict_witness :
    processFile envExists cfgA stW "in.csv" "out.csv" =
      .error (.fileExistsError, stW) :=
  claim_c4_conflict envExists cfgA stW "in.csv" "out.csv" rfl rfl

def fsConflict : FStatus := ⟨"in.csv", "out.csv", 0, true, [], [], [], []⟩

def stConflict : JMState :=
  ⟨[(get_processing_id cfgA "in.csv" "out.csv", fsConflict)], [], [], []⟩

/-- C8 counterexample: a progress record with `is_done = true` but
`batches_completed = 0` whose output path exists makes `__process_file`
raise `FileExistsError` instead of skipping the file as a no-op — the
conflict check of `validate_processing` runs before the `is_done` skip, so
the claim "every `is_done` record is skipped without raising" fails at this
input. -/
theorem claim_c8_counterexample :
    (effectiveStatus cfgA stConflict "in.csv" "out.csv").is_done = true ∧
    processFile envExists cfgA stConflict "in.csv" "out.csv" =
      .error (.fileExistsError, stConflict) := by
  constructor
  · rfl
  · rfl

/-- C8 (amended): for every file whose progress record has
`is_done = true` *and* which does not trigger the conflict gate (it is not
the case that the record's output path exists while `batches_completed`
is 0), re-running the per-file processing is an idempotent no-op: the state
is returned unchanged — zero fetch/annotate events, nothing written or
created at the output path, store and persisted snapshot untouched — and
the call completes without raising. -/
theorem claim_c8_done_skip (env : JobEnv) (cfg : BicConfig) (st : JMState)
    (fp op : String)
    (hdone : (effectiveStatus cfg st fp op).is_done = true)
    (hnoconf : ¬(fileExists env st (effectiveStatus cfg st fp op).out_path = true ∧
        (effectiveStatus cfg st fp op).n_batches = 0)) :
    processFile env cfg st fp op = .ok st := by
  have hval : validate_processing env st (effectiveStatus cfg st fp op) = .ok false := by
    unfold validate_processing
    rw [if_neg hnoconf, if_pos hdone]
  simp only [processFile]
  rw [hval]

def fsDone : FStatus := ⟨"in.csv", "out.csv", 1, true, [9], [none], [3], [4]⟩

def stDone : JMState :=
  ⟨[(get_processing_id cfgA "in.csv" "out.csv", fsDone)], [], [], []⟩

theorem claim_c8_done_skip_witness :
    processFile envW cfgA stDone "in.csv" "out.csv" = .ok stDone :=
  claim_c8_done_skip envW cfgA stDone "in.csv" "out.csv" rfl
    (by intro h; exact absurd h.1 (by decide))

/-- C9: `process_files` called with input and output path lists of unequal
lengths fails immediately with an `AssertionError` — the returned state is
exactly the input state: no file opened, no batch fetched, no status-store
entry created or mutated. -/
theorem claim_c9_length_mismatch (env : JobEnv) (cfg : BicConfig) (st : JMState)
    (files out_paths : List String)
    (h : files.length ≠ out_paths.length) :
    process_files env cfg st files out_paths = .error (.assertionError, st) := by
  unfold process_files
  rw [if_neg h]

theorem claim_c9_length_mismatch_witness :
    process_files envW cfgA stW ["a.csv"] [] = .error (.assertionError, stW) :=
  claim_c9_length_mismatch envW cfgA stW ["a.csv"] [] (by decide)
